import Mathlib

/-!
Verification of the SU2 finite-difference driver and its run-state core.

The repository contains the driver `SU2_PY/finite_differences.py` and the
package surface `SU2_PY/SU2/io/__init__.py`.  The bodies of the core
components the driver calls (`Config`, `State_Factory`, `find_files`,
`read_physics`, `load_data`/`save_data`, `filelock`, and
`SU2.eval.gradients.findiff`) are not part of the source tree handled
here; where a definition below embeds one of those, its doc comment says
`Modelled from the spec:` and the definition follows the specification
document.  Everything else is translated directly from the Python source.

Numeric scalar values (function values, gradient components) are modelled
as integers: no claim below depends on floating-point semantics.
Python dictionary equality (`==`) compares key/value content, not
insertion order, so state equality is modelled extensionally by the
`lookupF` function of each section.
-/

/-- A configuration value: SU2 config entries are strings, numbers or lists;
the driver only ever writes integers and strings, which is all the claims
need. -/
inductive Val where
  | str : String → Val
  | int : Int → Val
deriving DecidableEq

/-- Modelled from the spec: the Configuration Store is an ordered mapping
from uppercase string keys to values (the `Config` class is not in the
handled sources).  We represent it as an association list. -/
def Config : Type := List (String × Val)

instance : DecidableEq Config := by
  unfold Config; infer_instance

/-- Look up the first binding of a key in an association list (the lookup
function of a mapping). -/
def lookupF {K V : Type} [DecidableEq K] (l : List (K × V)) (k : K) : Option V :=
  (l.find? (fun p => p.1 = k)).map (fun p => p.2)

/-- Modelled from the spec: `set(key, value)` overwrites the binding when
the key is present (keeping its position, as Python dict assignment does)
and appends it otherwise. -/
def setKey {K V : Type} [DecidableEq K] : List (K × V) → K → V → List (K × V)
  | [], k, v => [(k, v)]
  | p :: t, k, v => if p.1 = k then (k, v) :: t else p :: setKey t k v

/-- `Config.set`, from the spec contract of the Configuration Store. -/
def Config.set (c : Config) (k : String) (v : Val) : Config := setKey c k v

/-- `Config.get`, from the spec contract: returns `none` for an absent key,
never an exception. -/
def Config.get (c : Config) (k : String) : Option Val := lookupF c k

theorem lookupF_nil {K V : Type} [DecidableEq K] (k : K) :
    lookupF ([] : List (K × V)) k = none := rfl

theorem lookupF_cons {K V : Type} [DecidableEq K] (p : K × V) (l : List (K × V)) (k : K) :
    lookupF (p :: l) k = if p.1 = k then some p.2 else lookupF l k := by
  simp only [lookupF, List.find?]
  by_cases h : p.1 = k
  · simp [h]
  · simp [h]

theorem lookupF_append {K V : Type} [DecidableEq K] (l₁ l₂ : List (K × V)) (k : K) :
    lookupF (l₁ ++ l₂) k = (lookupF l₁ k).orElse (fun _ => lookupF l₂ k) := by
  induction l₁ with
  | nil => simp [lookupF_nil]
  | cons p t ih =>
      rw [List.cons_append, lookupF_cons, lookupF_cons]
      by_cases h : p.1 = k
      · simp [h]
      · simp [h, ih]

theorem lookupF_set_self {K V : Type} [DecidableEq K] (l : List (K × V)) (k : K) (v : V) :
    lookupF (setKey l k v) k = some v := by
  induction l with
  | nil => simp [setKey, lookupF_cons]
  | cons p t ih =>
      rw [setKey]
      by_cases hp : p.1 = k
      · simp [hp, lookupF_cons]
      · rw [if_neg hp, lookupF_cons, if_neg hp]
        exact ih

theorem lookupF_set_ne {K V : Type} [DecidableEq K] (l : List (K × V)) (k k' : K) (v : V)
    (hne : k ≠ k') : lookupF (setKey l k v) k' = lookupF l k' := by
  induction l with
  | nil => simp [setKey, lookupF_cons, lookupF_nil, hne]
  | cons p t ih =>
      rw [setKey]
      by_cases hp : p.1 = k
      · rw [if_pos hp, lookupF_cons, lookupF_cons, if_neg hne, hp, if_neg hne]
      · rw [if_neg hp, lookupF_cons, lookupF_cons, ih]

theorem lookupF_isSome_of_mem {K V : Type} [DecidableEq K] (l : List (K × V)) (p : K × V)
    (h : p ∈ l) : (lookupF l p.1).isSome := by
  induction l with
  | nil => cases h
  | cons q t ih =>
      rw [lookupF_cons]
      by_cases hq : q.1 = p.1
      · simp [hq]
      · rcases List.mem_cons.mp h with h1 | h2
        · exact absurd (h1 ▸ rfl) hq
        · simp only [hq, if_false]
          exact ih h2

/-- Modelled from the spec: `merge(a, b)` section primitive — a right-biased
merge of two ordered mappings: entries of `b` override entries of `a` with
the same key; entries of `a` whose key `b` does not bind are kept. -/
def updateMap {K V : Type} [DecidableEq K] (a b : List (K × V)) : List (K × V) :=
  a.filter (fun p => (lookupF b p.1).isNone) ++ b

theorem lookupF_filterNone {K V : Type} [DecidableEq K] (l m : List (K × V)) (k : K) :
    lookupF (l.filter (fun p => (lookupF m p.1).isNone)) k =
      match lookupF m k with
      | some _ => none
      | none => lookupF l k := by
  induction l with
  | nil =>
      cases h : lookupF m k with
      | some v => simp [lookupF_nil]
      | none => simp [lookupF_nil]
  | cons p t ih =>
      rw [List.filter_cons]
      by_cases hp : p.1 = k
      · cases h : lookupF m k with
        | some v =>
            have : (lookupF m p.1).isNone = false := by rw [hp, h]; rfl
            simp only [this, Bool.false_eq_true, if_false]
            rw [ih, h]
        | none =>
            have : (lookupF m p.1).isNone = true := by rw [hp, h]; rfl
            simp only [this, if_true]
            rw [lookupF_cons, if_pos hp, lookupF_cons, if_pos hp]
      · by_cases hm : (lookupF m p.1).isNone
        · simp only [hm, if_true]
          rw [lookupF_cons, if_neg hp, ih, lookupF_cons, if_neg hp]
        · simp only [hm, Bool.false_eq_true, if_false]
          rw [ih, lookupF_cons, if_neg hp]

theorem lookupF_updateMap {K V : Type} [DecidableEq K] (a b : List (K × V)) (k : K) :
    lookupF (updateMap a b) k =
      match lookupF b k with
      | some v => some v
      | none => lookupF a k := by
  rw [updateMap, lookupF_append, lookupF_filterNone]
  cases h : lookupF b k with
  | some v => simp
  | none => simp

theorem updateMap_self {K V : Type} [DecidableEq K] (a : List (K × V)) :
    updateMap a a = a := by
  rw [updateMap]
  have h : a.filter (fun p => (lookupF a p.1).isNone) = [] := by
    apply List.filter_eq_nil_iff.mpr
    intro p hp
    have := lookupF_isSome_of_mem a p hp
    simp [Option.isNone, Option.isSome] at this ⊢
    cases h : lookupF a p.1 with
    | some v => simp
    | none => rw [h] at this; simp at this
  rw [h, List.nil_append]

theorem updateMap_assoc {K V : Type} [DecidableEq K] (a b c : List (K × V)) :
    updateMap (updateMap a b) c = updateMap a (updateMap b c) := by
  unfold updateMap
  rw [List.filter_append, List.append_assoc, List.filter_filter]
  have h : ∀ p : K × V,
      ((lookupF c p.1).isNone && (lookupF b p.1).isNone) =
        (lookupF (b.filter (fun q => (lookupF c q.1).isNone) ++ c) p.1).isNone := by
    intro p
    rw [lookupF_append]
    rw [lookupF_filterNone]
    cases hc : lookupF c p.1 with
    | some v => simp
    | none =>
        cases hb : lookupF b p.1 with
        | some v => simp
        | none => simp
  have := List.filter_congr (fun p _ => h p) (l := a)
  rw [this]

/-- Modelled from the spec: the Run State — a hierarchical record with the
four fixed top-level sections.  Section contents are ordered mappings;
`HISTORY` (an ordered sequence of per-iteration records) is keyed by its
iteration index.  Scalar values are modelled as integers. -/
structure RunState where
  FILES : List ((Nat × String) × List String)
  HISTORY : List (Nat × List (String × Int))
  FUNCTIONS : List (String × Int)
  GRADIENTS : List (Nat × List (String × Int))
deriving DecidableEq

/-- Modelled from the spec: `create_empty()` / the `State_Factory` imported
as `State` in `SU2/io/__init__.py` — a pure constructor of the empty run
state. -/
def State_Factory : RunState :=
  { FILES := [], HISTORY := [], FUNCTIONS := [], GRADIENTS := [] }

/-- Modelled from the spec: `merge(a, b) -> RunState`, the right-biased
merge applied section-wise. -/
def RunState.merge (a b : RunState) : RunState :=
  { FILES := updateMap a.FILES b.FILES
    HISTORY := updateMap a.HISTORY b.HISTORY
    FUNCTIONS := updateMap a.FUNCTIONS b.FUNCTIONS
    GRADIENTS := updateMap a.GRADIENTS b.GRADIENTS }

/-- Modelled from the spec: the Physics Descriptor — the zones
(indexed `0 .. NZONES-1`), the solver type, and the expected output
artifact categories per zone. -/
structure PhysicsDescriptor where
  nzones : Nat
  solver : String
  artifacts : List String
deriving DecidableEq

/-- Modelled from the spec: the artifact categories a solver type is
expected to produce; the specification fixes the instance
`EULER -> [history, restart]` and leaves other solver types to the same
naming convention. -/
def expected_artifacts (solver : String) : List String :=
  if solver = "EULER" then ["history", "restart"] else ["history", "restart"]

/-- Modelled from the spec: `read_physics` / `derive(config)` — a pure
function of the Configuration; fails with a `ConfigError` when the zone
count or solver-type key is missing or inconsistent (`NZONES <= 0`). -/
def read_physics (c : Config) : Except String PhysicsDescriptor :=
  match Config.get c "NZONES", Config.get c "SOLVER" with
  | some (Val.int n), some (Val.str sv) =>
      if 0 < n then
        Except.ok { nzones := n.toNat, solver := sv, artifacts := expected_artifacts sv }
      else Except.error "ConfigError"
  | _, _ => Except.error "ConfigError"

/-- Modelled from the spec: the filename a given (zone, artifact-category)
pair is probed under — the convention of the specification scenario
(`history.dat`, `restart.dat`), prefixed by the zone index for multi-zone
runs. -/
def expected_name (zone : Nat) (category : String) : String :=
  (if zone = 0 then "" else "zone_" ++ toString zone ++ "_") ++ category ++ ".dat"

/-- Modelled from the spec: `find_files(state, physics, root_dir)` — for
every (zone, artifact-category) pair of the physics descriptor it probes
the disk (modelled as the list of paths that exist) and inserts the paths
it finds into `FILES`; absent artifacts are skipped, never recorded. -/
def find_files (s : RunState) (ph : PhysicsDescriptor) (disk : List String) : RunState :=
  { s with
    FILES :=
      (List.range ph.nzones).foldl
        (fun acc zone =>
          ph.artifacts.foldl
            (fun acc2 cat =>
              if expected_name zone cat ∈ disk then
                setKey acc2 (zone, cat) [expected_name zone cat]
              else acc2)
            acc)
        s.FILES }

theorem merge_right_section {K V : Type} [DecidableEq K] (a b : List (K × V)) (k : K)
    (v : V) (hb : lookupF b k = some v) : lookupF (updateMap a b) k = some v := by
  rw [lookupF_updateMap, hb]

/-- Claim C2: merge is associative and idempotent, and is right-biased —
for every key present in both states, the merged state holds the second
state's entry. -/
theorem merge_assoc_idem_right_biased (a b c : RunState) :
    RunState.merge (RunState.merge a b) c = RunState.merge a (RunState.merge b c) ∧
    RunState.merge a a = a ∧
    (∀ k v, (lookupF a.FILES k).isSome → lookupF b.FILES k = some v →
      lookupF (RunState.merge a b).FILES k = some v) ∧
    (∀ k v, (lookupF a.HISTORY k).isSome → lookupF b.HISTORY k = some v →
      lookupF (RunState.merge a b).HISTORY k = some v) ∧
    (∀ k v, (lookupF a.FUNCTIONS k).isSome → lookupF b.FUNCTIONS k = some v →
      lookupF (RunState.merge a b).FUNCTIONS k = some v) ∧
    (∀ k v, (lookupF a.GRADIENTS k).isSome → lookupF b.GRADIENTS k = some v →
      lookupF (RunState.merge a b).GRADIENTS k = some v) := by
  refine ⟨?_, ?_, ?_, ?_, ?_, ?_⟩
  · simp [RunState.merge, updateMap_assoc]
  · simp [RunState.merge, updateMap_self]
  · intro k v _ hb; exact merge_right_section a.FILES b.FILES k v hb
  · intro k v _ hb; exact merge_right_section a.HISTORY b.HISTORY k v hb
  · intro k v _ hb; exact merge_right_section a.FUNCTIONS b.FUNCTIONS k v hb
  · intro k v _ hb; exact merge_right_section a.GRADIENTS b.GRADIENTS k v hb

def mergeDemoA : RunState :=
  { FILES := [], HISTORY := [], FUNCTIONS := [("DRAG", 1)], GRADIENTS := [] }

def mergeDemoB : RunState :=
  { FILES := [], HISTORY := [], FUNCTIONS := [("DRAG", 2)], GRADIENTS := [] }

/-- Witness for claim C2 at concrete states: the right-bias hypotheses are
discharged at the key `DRAG` held by both demo states. -/
theorem merge_assoc_idem_right_biased_witness :
    lookupF (RunState.merge mergeDemoA mergeDemoB).FUNCTIONS "DRAG" = some 2 :=
  (merge_assoc_idem_right_biased mergeDemoA mergeDemoB mergeDemoA).2.2.2.2.1
    "DRAG" 2 (by decide) (by decide)

/-- All file paths recorded in a `FILES` section. -/
def pathsOf (l : List ((Nat × String) × List String)) : List String :=
  (l.map (fun p => p.2)).flatten

theorem mem_pathsOf_setKey (l : List ((Nat × String) × List String)) (k : Nat × String)
    (v : List String) (q : String) (h : q ∈ pathsOf (setKey l k v)) :
    q ∈ pathsOf l ∨ q ∈ v := by
  induction l with
  | nil =>
      simp [setKey, pathsOf] at h
      exact Or.inr h
  | cons p t ih =>
      rw [setKey] at h
      by_cases hp : p.1 = k
      · rw [if_pos hp] at h
        simp only [pathsOf, List.map_cons, List.flatten] at h ⊢
        rcases List.mem_append.mp h with h1 | h2
        · exact Or.inr h1
        · exact Or.inl (List.mem_append.mpr (Or.inr h2))
      · rw [if_neg hp] at h
        simp only [pathsOf, List.map_cons, List.flatten] at h ⊢
        rcases List.mem_append.mp h with h1 | h2
        · exact Or.inl (List.mem_append.mpr (Or.inl h1))
        · rcases ih h2 with h3 | h4
          · exact Or.inl (List.mem_append.mpr (Or.inr h3))
          · exact Or.inr h4

theorem pathsOf_fold_artifacts (zone : Nat) (disk : List String) (cats : List String) :
    ∀ (acc : List ((Nat × String) × List String)) (q : String),
      q ∈ pathsOf (cats.foldl
        (fun acc2 cat =>
          if expected_name zone cat ∈ disk then
            setKey acc2 (zone, cat) [expected_name zone cat]
          else acc2) acc) →
      q ∈ pathsOf acc ∨ q ∈ disk := by
  induction cats with
  | nil => intro acc q h; exact Or.inl h
  | cons cat rest ih =>
      intro acc q h
      rw [List.foldl_cons] at h
      by_cases hd : expected_name zone cat ∈ disk
      · rw [if_pos hd] at h
        rcases ih _ q h with h1 | h2
        · rcases mem_pathsOf_setKey _ _ _ q h1 with h3 | h4
          · exact Or.inl h3
          · rcases List.mem_singleton.mp h4 with rfl
            exact Or.inr hd
        · exact Or.inr h2
      · rw [if_neg hd] at h
        exact ih _ q h

theorem pathsOf_fold_zones (ph : PhysicsDescriptor) (disk : List String)
    (zones : List Nat) :
    ∀ (acc : List ((Nat × String) × List String)) (q : String),
      q ∈ pathsOf (zones.foldl
        (fun acc zone =>
          ph.artifacts.foldl
            (fun acc2 cat =>
              if expected_name zone cat ∈ disk then
                setKey acc2 (zone, cat) [expected_name zone cat]
              else acc2) acc) acc) →
      q ∈ pathsOf acc ∨ q ∈ disk := by
  induction zones with
  | nil => intro acc q h; exact Or.inl h
  | cons z rest ih =>
      intro acc q h
      rw [List.foldl_cons] at h
      rcases ih _ q h with h1 | h2
      · exact pathsOf_fold_artifacts z disk ph.artifacts acc q h1
      · exact Or.inr h2

/-- Claim C1: `find_files` never records a path that is absent from the disk
at call time — every path of the resulting `FILES` section was either
already recorded or exists on disk, and starting from the fresh empty state
(as the driver does) every recorded path exists on disk. -/
theorem find_files_no_false_positives :
    (∀ (s : RunState) (ph : PhysicsDescriptor) (disk : List String) (q : String),
      q ∈ pathsOf (find_files s ph disk).FILES → q ∈ pathsOf s.FILES ∨ q ∈ disk) ∧
    (∀ (ph : PhysicsDescriptor) (disk : List String) (q : String),
      q ∈ pathsOf (find_files State_Factory ph disk).FILES → q ∈ disk) := by
  constructor
  · intro s ph disk q h
    exact pathsOf_fold_zones ph disk (List.range ph.nzones) s.FILES q h
  · intro ph disk q h
    rcases pathsOf_fold_zones ph disk (List.range ph.nzones) State_Factory.FILES q h with
      h1 | h2
    · simp [State_Factory, pathsOf] at h1
    · exact h2

/-- Witness for claim C1: probing a disk holding only `history.dat` records
that path, and the theorem places it on the disk. -/
theorem find_files_no_false_positives_witness :
    "history.dat" ∈ pathsOf (find_files State_Factory
      { nzones := 1, solver := "EULER", artifacts := ["history", "restart"] }
      ["history.dat"]).FILES ∧
    "history.dat" ∈ ["history.dat"] :=
  ⟨by decide,
   find_files_no_false_positives.2
     { nzones := 1, solver := "EULER", artifacts := ["history", "restart"] }
     ["history.dat"] "history.dat" (by decide)⟩

/-- Modelled from the spec: one serialized top-level section of a state
checkpoint file. -/
inductive SectionData where
  | filesData : List ((Nat × String) × List String) → SectionData
  | historyData : List (Nat × List (String × Int)) → SectionData
  | functionsData : List (String × Int) → SectionData
  | gradientsData : List (Nat × List (String × Int)) → SectionData
deriving DecidableEq

/-- Modelled from the spec: a state checkpoint file — a serialized form of
the Run State schema, stored as named sections so that newer optional
sections may be absent. -/
def Checkpoint : Type := List (String × SectionData)

instance : DecidableEq Checkpoint := by
  unfold Checkpoint; infer_instance

/-- Modelled from the spec: the error taxonomy of State Persistence. -/
inductive StateError where
  | notFound
  | corrupt
deriving DecidableEq

/-- Serialize a run state into its checkpoint sections. -/
def encodeCk (s : RunState) : Checkpoint :=
  [("FILES", SectionData.filesData s.FILES),
   ("HISTORY", SectionData.historyData s.HISTORY),
   ("FUNCTIONS", SectionData.functionsData s.FUNCTIONS),
   ("GRADIENTS", SectionData.gradientsData s.GRADIENTS)]

/-- Decode the `FILES` section: absent means the empty default, the wrong
shape is a `CorruptStateError`. -/
def decodeFiles : Option SectionData → Except StateError (List ((Nat × String) × List String))
  | none => Except.ok []
  | some (SectionData.filesData f) => Except.ok f
  | some _ => Except.error StateError.corrupt

/-- Decode the `HISTORY` section (absent means empty). -/
def decodeHistory : Option SectionData → Except StateError (List (Nat × List (String × Int)))
  | none => Except.ok []
  | some (SectionData.historyData h) => Except.ok h
  | some _ => Except.error StateError.corrupt

/-- Decode the `FUNCTIONS` section (absent means empty). -/
def decodeFunctions : Option SectionData → Except StateError (List (String × Int))
  | none => Except.ok []
  | some (SectionData.functionsData fn) => Except.ok fn
  | some _ => Except.error StateError.corrupt

/-- Decode the `GRADIENTS` section (absent means empty). -/
def decodeGradients : Option SectionData → Except StateError (List (Nat × List (String × Int)))
  | none => Except.ok []
  | some (SectionData.gradientsData g) => Except.ok g
  | some _ => Except.error StateError.corrupt

/-- Deserialize a checkpoint: each section absent from the file is its
empty default; a section present with the wrong shape is a
`CorruptStateError`. -/
def decodeCk (ck : Checkpoint) : Except StateError RunState :=
  match decodeFiles (lookupF ck "FILES"), decodeHistory (lookupF ck "HISTORY"),
      decodeFunctions (lookupF ck "FUNCTIONS"), decodeGradients (lookupF ck "GRADIENTS") with
  | Except.ok f, Except.ok h, Except.ok fn, Except.ok g =>
      Except.ok { FILES := f, HISTORY := h, FUNCTIONS := fn, GRADIENTS := g }
  | Except.error e, _, _, _ => Except.error e
  | _, Except.error e, _, _ => Except.error e
  | _, _, Except.error e, _ => Except.error e
  | _, _, _, Except.error e => Except.error e

/-- The durable store, as the map from paths to the checkpoints they hold. -/
def FileSys : Type := String → Option Checkpoint

/-- Modelled from the spec: `save_data` / `save(state, path)` serializes
the run state to `path`; the temporary-file-and-rename step of the
contract is not observable in this sequential model, in which the store
moves atomically from the old mapping to the new one. -/
def save_data (s : RunState) (path : String) (fs : FileSys) : FileSys :=
  fun p => if p = path then some (encodeCk s) else fs p

/-- Modelled from the spec: `load_data` / `load(path)` fails with
`NotFoundError` when `path` is absent and `CorruptStateError` when the file
cannot be deserialized into the schema. -/
def load_data (path : String) (fs : FileSys) : Except StateError RunState :=
  match fs path with
  | none => Except.error StateError.notFound
  | some ck => decodeCk ck

/-- Claim C3: `save` followed by `load` on the same path, with no
intervening modification, returns a state equal to the saved one. -/
theorem save_load_roundtrip (s : RunState) (path : String) (fs : FileSys) :
    load_data path (save_data s path fs) = Except.ok s := by
  simp only [load_data, save_data, if_pos rfl]
  simp [decodeCk, encodeCk, lookupF_cons,
    decodeFiles, decodeHistory, decodeFunctions, decodeGradients]

theorem lookupF_filter_key {K V : Type} [DecidableEq K] (pred : K → Bool)
    (l : List (K × V)) (k : K) :
    lookupF (l.filter (fun p => pred p.1)) k =
      if pred k then lookupF l k else none := by
  induction l with
  | nil => by_cases h : pred k <;> simp [lookupF_nil, h]
  | cons p t ih =>
      rw [List.filter_cons]
      by_cases hp : p.1 = k
      · by_cases h : pred k
        · rw [if_pos (hp ▸ h), lookupF_cons, if_pos hp, if_pos h, lookupF_cons, if_pos hp]
        · rw [if_neg (by rw [hp]; exact h), ih, if_neg h, if_neg h]
      · by_cases hq : pred p.1
        · rw [if_pos hq, lookupF_cons, if_neg hp, ih, lookupF_cons, if_neg hp]
        · rw [if_neg hq, ih, lookupF_cons, if_neg hp]

/-- The checkpoint restricted to the named sections: the serialized form of
a run state in which every section outside `names` is omitted. -/
def restrictCk (ck : Checkpoint) (names : List String) : Checkpoint :=
  ck.filter (fun p => p.1 ∈ names)

/-- Claim C8: loading a checkpoint that serializes a run state but omits
any subset of its sections succeeds, and every omitted section comes back
as its empty default. -/
theorem load_missing_sections_default (s : RunState) (names : List String)
    (path : String) (fs : FileSys) :
    load_data path (fun p => if p = path then some (restrictCk (encodeCk s) names) else fs p) =
      Except.ok
        { FILES := if "FILES" ∈ names then s.FILES else []
          HISTORY := if "HISTORY" ∈ names then s.HISTORY else []
          FUNCTIONS := if "FUNCTIONS" ∈ names then s.FUNCTIONS else []
          GRADIENTS := if "GRADIENTS" ∈ names then s.GRADIENTS else [] } := by
  have hload : load_data path
      (fun p => if p = path then some (restrictCk (encodeCk s) names) else fs p) =
      decodeCk (restrictCk (encodeCk s) names) := by
    simp [load_data]
  rw [hload]
  have hf : ∀ k : String, lookupF (restrictCk (encodeCk s) names) k =
      if k ∈ names then lookupF (encodeCk s) k else none := by
    intro k
    rw [restrictCk]
    have := lookupF_filter_key (fun q => decide (q ∈ names)) (encodeCk s) k
    simp only [decide_eq_true_eq] at this
    simpa using this
  unfold decodeCk
  rw [hf, hf, hf, hf]
  by_cases h1 : ("FILES" : String) ∈ names <;>
    by_cases h2 : ("HISTORY" : String) ∈ names <;>
    by_cases h3 : ("FUNCTIONS" : String) ∈ names <;>
    by_cases h4 : ("GRADIENTS" : String) ∈ names <;>
    simp [h1, h2, h3, h4, encodeCk, lookupF_cons,
      decodeFiles, decodeHistory, decodeFunctions, decodeGradients]

/-- Modelled from the spec: `record_function(state, name, value)` —
insert/overwrite of one function value. -/
def record_function (s : RunState) (name : String) (v : Int) : RunState :=
  { s with FUNCTIONS := setKey s.FUNCTIONS name v }

/-- Modelled from the spec: `record_gradient(state, dv_index, name, value)`. -/
def record_gradient (s : RunState) (dv : Nat) (name : String) (v : Int) : RunState :=
  { s with GRADIENTS :=
      setKey s.GRADIENTS dv (setKey ((lookupF s.GRADIENTS dv).getD []) name v) }

/-- The external collaborators of the gradient evaluation: the base and
perturbed objective values the solver produces, the step size, the list of
objectives and the number of design variables.  Scalars are integers. -/
structure SolverEnv where
  baseValue : String → Int
  pertValue : Nat → String → Int
  step : Int
  objectives : List String
  ndv : Nat

/-- Modelled from the spec: `SU2.eval.gradients.findiff(config, state)` —
the finite-difference gradient evaluation (its body is not under the
handled sources).  It records the base function values and, for each
design variable, the forward-difference gradient of each objective; it
reads the configuration but never writes it, so the configuration after
the call (first component) is the one it was given. -/
def findiff (env : SolverEnv) (config : Config) (state : RunState) :
    Config × RunState :=
  let s1 := env.objectives.foldl
    (fun s name => record_function s name (env.baseValue name)) state
  let s2 := (List.range env.ndv).foldl
    (fun s i =>
      env.objectives.foldl
        (fun s name =>
          record_gradient s i name
            ((env.pertValue i name - env.baseValue name) / env.step)) s) s1
  (config, s2)

/-- One observable step of the driver, in execution order. -/
inductive Event where
  | configLoad : String → Event
  | keySet : String → Event
  | stateCreate : Event
  | physicsRead : Event
  | filesFound : Event
  | gradientEval : Event
deriving DecidableEq

/-- The result of one driver execution: the event trace, the configuration
at the moment `read_physics` was called, the derived physics descriptor,
the configuration at return, and the returned run state. -/
structure FDRun where
  trace : List Event
  configAtPhysics : Config
  physics : PhysicsDescriptor
  finalConfig : Config
  ret : RunState

/-- Translated from `finite_differences` in
`src/SU2_PY/finite_differences.py` (lines 71-91): load the configuration
from the file, override `NUMBER_PART`, `NZONES` (already an integer here,
so `int(nzones)` is the identity) and — when quiet — `CONSOLE`, create the
empty state, derive the physics, probe the filesystem, run the gradient
evaluation and return the state.  The trace records each step as it
happens. -/
def finite_differences (loadConfig : String → Config) (disk : List String)
    (env : SolverEnv) (filename : String) (partitions : Int) (quiet : Bool)
    (nzones : Int) : Except String FDRun :=
  let tr0 : List Event := []
  let config := loadConfig filename
  let tr1 := tr0 ++ [Event.configLoad filename]
  let config := Config.set config "NUMBER_PART" (Val.int partitions)
  let tr2 := tr1 ++ [Event.keySet "NUMBER_PART"]
  let config := Config.set config "NZONES" (Val.int nzones)
  let tr3 := tr2 ++ [Event.keySet "NZONES"]
  let config := if quiet then Config.set config "CONSOLE" (Val.str "CONCISE") else config
  let tr4 := tr3 ++ (if quiet then [Event.keySet "CONSOLE"] else [])
  let state := State_Factory
  let tr5 := tr4 ++ [Event.stateCreate]
  match read_physics config with
  | Except.error e => Except.error e
  | Except.ok physics =>
      let tr6 := tr5 ++ [Event.physicsRead]
      let state := find_files state physics disk
      let tr7 := tr6 ++ [Event.filesFound]
      let res := findiff env config state
      let tr8 := tr7 ++ [Event.gradientEval]
      Except.ok
        { trace := tr8
          configAtPhysics := config
          physics := physics
          finalConfig := res.1
          ret := res.2 }

/-- Claim C4: the driver performs, in order, configuration load, key
overrides, physics derivation, `find_files` on the freshly created empty
state, the gradient evaluation, and returns the state the evaluation
produced. -/
theorem finite_differences_order (loadConfig : String → Config) (disk : List String)
    (env : SolverEnv) (filename : String) (partitions : Int) (quiet : Bool)
    (nzones : Int) (r : FDRun)
    (h : finite_differences loadConfig disk env filename partitions quiet nzones =
      Except.ok r) :
    r.trace = [Event.configLoad filename, Event.keySet "NUMBER_PART", Event.keySet "NZONES"]
        ++ (if quiet then [Event.keySet "CONSOLE"] else [])
        ++ [Event.stateCreate, Event.physicsRead, Event.filesFound, Event.gradientEval] ∧
    r.ret = (findiff env r.configAtPhysics (find_files State_Factory r.physics disk)).2 := by
  unfold finite_differences at h
  split at h <;> dsimp only at h <;> split at h <;> try exact Except.noConfusion h
  all_goals (injection h with h; subst h; refine ⟨?_, rfl⟩; simp_all)

/-- Claim C5: after loading, the driver sets `NUMBER_PART` to `partitions`
and `NZONES` to the (integer) zone count, and sets `CONSOLE` to `CONCISE`
exactly when `quiet` holds, leaving `CONSOLE` as loaded otherwise. -/
theorem finite_differences_overrides (loadConfig : String → Config) (disk : List String)
    (env : SolverEnv) (filename : String) (partitions : Int) (quiet : Bool)
    (nzones : Int) (r : FDRun)
    (h : finite_differences loadConfig disk env filename partitions quiet nzones =
      Except.ok r) :
    Config.get r.configAtPhysics "NUMBER_PART" = some (Val.int partitions) ∧
    Config.get r.configAtPhysics "NZONES" = some (Val.int nzones) ∧
    (quiet = true → Config.get r.configAtPhysics "CONSOLE" = some (Val.str "CONCISE")) ∧
    (quiet = false → Config.get r.configAtPhysics "CONSOLE" =
      Config.get (loadConfig filename) "CONSOLE") := by
  have hN1 : ("CONSOLE" : String) ≠ "NUMBER_PART" := by decide
  have hN2 : ("NZONES" : String) ≠ "NUMBER_PART" := by decide
  have hN3 : ("CONSOLE" : String) ≠ "NZONES" := by decide
  have hN4 : ("NUMBER_PART" : String) ≠ "CONSOLE" := by decide
  have hN5 : ("NZONES" : String) ≠ "CONSOLE" := by decide
  unfold finite_differences at h
  split at h <;> dsimp only at h <;> split at h <;> try exact Except.noConfusion h
  · -- quiet = true
    injection h with h; subst h
    refine ⟨?_, ?_, fun _ => ?_, fun hq => by simp_all⟩
    · show lookupF (setKey (setKey (setKey (loadConfig filename)
        "NUMBER_PART" (Val.int partitions)) "NZONES" (Val.int nzones))
        "CONSOLE" (Val.str "CONCISE")) "NUMBER_PART" = some (Val.int partitions)
      rw [lookupF_set_ne _ _ _ _ hN1, lookupF_set_ne _ _ _ _ hN2, lookupF_set_self]
    · show lookupF (setKey (setKey (setKey (loadConfig filename)
        "NUMBER_PART" (Val.int partitions)) "NZONES" (Val.int nzones))
        "CONSOLE" (Val.str "CONCISE")) "NZONES" = some (Val.int nzones)
      rw [lookupF_set_ne _ _ _ _ hN3, lookupF_set_self]
    · show lookupF (setKey (setKey (setKey (loadConfig filename)
        "NUMBER_PART" (Val.int partitions)) "NZONES" (Val.int nzones))
        "CONSOLE" (Val.str "CONCISE")) "CONSOLE" = some (Val.str "CONCISE")
      rw [lookupF_set_self]
  · -- quiet = false
    injection h with h; subst h
    refine ⟨?_, ?_, fun hq => by simp_all, fun _ => ?_⟩
    · show lookupF (setKey (setKey (loadConfig filename)
        "NUMBER_PART" (Val.int partitions)) "NZONES" (Val.int nzones))
        "NUMBER_PART" = some (Val.int partitions)
      rw [lookupF_set_ne _ _ _ _ hN2, lookupF_set_self]
    · show lookupF (setKey (setKey (loadConfig filename)
        "NUMBER_PART" (Val.int partitions)) "NZONES" (Val.int nzones))
        "NZONES" = some (Val.int nzones)
      rw [lookupF_set_self]
    · show lookupF (setKey (setKey (loadConfig filename)
        "NUMBER_PART" (Val.int partitions)) "NZONES" (Val.int nzones))
        "CONSOLE" = Config.get (loadConfig filename) "CONSOLE"
      rw [lookupF_set_ne _ _ _ _ hN5, lookupF_set_ne _ _ _ _ hN4]
      rfl

/-- Claim C9: the configuration is not mutated after being handed to the
physics derivation — at return it equals the configuration
`read_physics` was called with. -/
theorem finite_differences_config_frame (loadConfig : String → Config)
    (disk : List String) (env : SolverEnv) (filename : String) (partitions : Int)
    (quiet : Bool) (nzones : Int) (r : FDRun)
    (h : finite_differences loadConfig disk env filename partitions quiet nzones =
      Except.ok r) :
    r.finalConfig = r.configAtPhysics := by
  unfold finite_differences at h
  split at h <;> dsimp only at h <;> split at h <;> try exact Except.noConfusion h
  all_goals (injection h with h; subst h; rfl)

/-- Claim C6: the physics derivation is a deterministic function of the
configuration — two derivations from the same configuration agree. -/
theorem read_physics_deterministic (c : Config) (d₁ d₂ : PhysicsDescriptor)
    (h₁ : read_physics c = Except.ok d₁) (h₂ : read_physics c = Except.ok d₂) :
    d₁ = d₂ := by
  rw [h₁] at h₂
  exact Except.ok.inj h₂

def demoLoad : String → Config := fun _ => [("SOLVER", Val.str "EULER")]

def demoEnv : SolverEnv :=
  { baseValue := fun _ => 0, pertValue := fun _ _ => 0, step := 1,
    objectives := ["DRAG"], ndv := 1 }

def demoRun : FDRun :=
  { trace := [Event.configLoad "config.cfg", Event.keySet "NUMBER_PART",
      Event.keySet "NZONES", Event.stateCreate, Event.physicsRead,
      Event.filesFound, Event.gradientEval]
    configAtPhysics := [("SOLVER", Val.str "EULER"), ("NUMBER_PART", Val.int 2),
      ("NZONES", Val.int 1)]
    physics := { nzones := 1, solver := "EULER", artifacts := ["history", "restart"] }
    finalConfig := [("SOLVER", Val.str "EULER"), ("NUMBER_PART", Val.int 2),
      ("NZONES", Val.int 1)]
    ret := { FILES := [((0, "history"), ["history.dat"])]
             HISTORY := []
             FUNCTIONS := [("DRAG", 0)]
             GRADIENTS := [(0, [("DRAG", 0)])] } }

/-- Witness for claim C4: a concrete quiet-free run over a disk holding
only `history.dat`. -/
theorem finite_differences_order_witness :
    demoRun.trace = [Event.configLoad "config.cfg", Event.keySet "NUMBER_PART",
        Event.keySet "NZONES"]
      ++ (if false then [Event.keySet "CONSOLE"] else [])
      ++ [Event.stateCreate, Event.physicsRead, Event.filesFound, Event.gradientEval] ∧
    demoRun.ret = (findiff demoEnv demoRun.configAtPhysics
      (find_files State_Factory demoRun.physics ["history.dat"])).2 :=
  finite_differences_order demoLoad ["history.dat"] demoEnv "config.cfg" 2 false 1
    demoRun (by exact rfl)

/-- Witness for claim C5 at the same concrete run. -/
theorem finite_differences_overrides_witness :
    Config.get demoRun.configAtPhysics "NUMBER_PART" = some (Val.int 2) ∧
    Config.get demoRun.configAtPhysics "NZONES" = some (Val.int 1) ∧
    Config.get demoRun.configAtPhysics "CONSOLE" =
      Config.get (demoLoad "config.cfg") "CONSOLE" := by
  have h := finite_differences_overrides demoLoad ["history.dat"] demoEnv "config.cfg"
    2 false 1 demoRun (by exact rfl)
  exact ⟨h.1, h.2.1, h.2.2.2 rfl⟩

/-- Witness for claim C9 at the same concrete run. -/
theorem finite_differences_config_frame_witness :
    demoRun.finalConfig = demoRun.configAtPhysics :=
  finite_differences_config_frame demoLoad ["history.dat"] demoEnv "config.cfg"
    2 false 1 demoRun (by exact rfl)

def demoPhysics : PhysicsDescriptor :=
  { nzones := 1, solver := "EULER", artifacts := ["history", "restart"] }

/-- Witness for claim C6: the derivation hypotheses hold at a concrete
configuration. -/
theorem read_physics_deterministic_witness :
    read_physics [("NZONES", Val.int 1), ("SOLVER", Val.str "EULER")] =
      Except.ok demoPhysics ∧ demoPhysics = demoPhysics :=
  ⟨by rfl,
   read_physics_deterministic [("NZONES", Val.int 1), ("SOLVER", Val.str "EULER")]
     demoPhysics demoPhysics (by rfl) (by rfl)⟩

/-- Python `str.upper()` over the characters of the string (the option
values involved are plain ASCII, where `Char.toUpper` agrees with
Python). -/
def pyUpper (s : String) : String := String.mk (s.data.map Char.toUpper)

/-- Translated from `main` in `src/SU2_PY/finite_differences.py` (line 58):
`options.quiet = options.quiet.upper() == 'TRUE'`. -/
def parse_quiet (s : String) : Bool := pyUpper s == "TRUE"

/-- Translated from `main` (line 51): the default of the `--quiet` option
is the string `False`. -/
def quiet_default : String := "False"

/-- Translated from `main`: the quiet flag handed to `finite_differences`,
from the option string when supplied and from the default otherwise. -/
def main_quiet (quietOpt : Option String) : Bool :=
  parse_quiet (quietOpt.getD quiet_default)

/-- Claim C10: the quiet flag is true exactly when the supplied string
uppercases to `TRUE`; the default and strings such as `yes` or `1` give
false rather than an error. -/
theorem main_quiet_parsing :
    (∀ s : String, main_quiet (some s) = true ↔ pyUpper s = "TRUE") ∧
    main_quiet none = false ∧
    main_quiet (some "yes") = false ∧
    main_quiet (some "1") = false ∧
    main_quiet (some "tRuE") = true := by
  refine ⟨?_, by decide, by decide, by decide, by decide⟩
  intro s
  simp [main_quiet, parse_quiet]

/-- Modelled from the spec: the status of one cooperating process with
respect to the advisory lock: not interested, blocked in `acquire` (with
the ticks waited so far and its timeout), holding the lock, failed with
`LockTimeout`, or done after `release`. -/
inductive ProcStatus where
  | idle : ProcStatus
  | waiting : Nat → Nat → ProcStatus
  | holding : ProcStatus
  | timedOut : ProcStatus
  | released : ProcStatus
deriving DecidableEq

/-- Modelled from the spec: the Lock Manager state for one named resource —
the process (if any) holding the exclusive lock, and every process's
status, indexed by process id. -/
structure LockSys where
  owner : Option Nat
  procs : Nat → ProcStatus

/-- Pointwise update of the process-status map. -/
def upd (f : Nat → ProcStatus) (p : Nat) (st : ProcStatus) : Nat → ProcStatus :=
  fun q => if q = p then st else f q

/-- One action of the interleaving semantics: a process starts an
`acquire` with a timeout, a blocked `acquire` takes one step (obtaining
the lock, ticking, or timing out), or a process releases. -/
inductive LockAct where
  | request : Nat → Nat → LockAct
  | poll : Nat → LockAct
  | release : Nat → LockAct
deriving DecidableEq

/-- Modelled from the spec: one transition of the Lock Manager.
`acquire` blocks until the lock is obtained or the timeout has elapsed, at
which point it fails with `LockTimeout`; `release` of a handle that is not
held is a no-op (idempotent release). -/
def LockSys.step (s : LockSys) : LockAct → LockSys
  | LockAct.request p t =>
      match s.procs p with
      | ProcStatus.idle => { s with procs := upd s.procs p (ProcStatus.waiting 0 t) }
      | _ => s
  | LockAct.poll p =>
      match s.procs p with
      | ProcStatus.waiting e t =>
          match s.owner with
          | none => { owner := some p, procs := upd s.procs p ProcStatus.holding }
          | some _ =>
              if t ≤ e then { s with procs := upd s.procs p ProcStatus.timedOut }
              else { s with procs := upd s.procs p (ProcStatus.waiting (e + 1) t) }
      | _ => s
  | LockAct.release p =>
      match s.procs p with
      | ProcStatus.holding => { owner := none, procs := upd s.procs p ProcStatus.released }
      | _ => s

/-- The initial Lock Manager state: the lock is free and no process is
interested. -/
def lockInit : LockSys := { owner := none, procs := fun _ => ProcStatus.idle }

/-- The state after running a sequence of actions from the initial state. -/
def lockRun (acts : List LockAct) : LockSys := acts.foldl LockSys.step lockInit

/-- The ownership invariant: a process holds the lock exactly when it is
the recorded owner. -/
def LockInv (s : LockSys) : Prop :=
  ∀ p, s.procs p = ProcStatus.holding ↔ s.owner = some p

theorem upd_same (f : Nat → ProcStatus) (p : Nat) (st : ProcStatus) :
    upd f p st p = st := by simp [upd]

theorem upd_other (f : Nat → ProcStatus) (p q : Nat) (st : ProcStatus) (h : q ≠ p) :
    upd f p st q = f q := by simp [upd, h]

theorem lockInv_init : LockInv lockInit := by
  intro p
  simp [lockInit]

theorem lockInv_step (s : LockSys) (a : LockAct) (h : LockInv s) :
    LockInv (s.step a) := by
  cases a with
  | request p t =>
      cases hst : s.procs p with
      | idle =>
          have hstep : s.step (LockAct.request p t) =
              { s with procs := upd s.procs p (ProcStatus.waiting 0 t) } := by
            simp [LockSys.step, hst]
          rw [hstep]
          intro q
          dsimp only
          by_cases hq : q = p
          · subst hq
            rw [upd_same]
            constructor
            · intro hh; cases hh
            · intro how
              have := (h q).mpr how
              rw [hst] at this
              cases this
          · rw [upd_other _ _ _ _ hq]
            exact h q
      | waiting e t0 =>
          have hstep : s.step (LockAct.request p t) = s := by simp [LockSys.step, hst]
          rw [hstep]; exact h
      | holding =>
          have hstep : s.step (LockAct.request p t) = s := by simp [LockSys.step, hst]
          rw [hstep]; exact h
      | timedOut =>
          have hstep : s.step (LockAct.request p t) = s := by simp [LockSys.step, hst]
          rw [hstep]; exact h
      | released =>
          have hstep : s.step (LockAct.request p t) = s := by simp [LockSys.step, hst]
          rw [hstep]; exact h
  | poll p =>
      cases hst : s.procs p with
      | waiting e t =>
          cases how : s.owner with
          | none =>
              have hstep : s.step (LockAct.poll p) =
                  { owner := some p, procs := upd s.procs p ProcStatus.holding } := by
                simp [LockSys.step, hst, how]
              rw [hstep]
              intro q
              dsimp only
              by_cases hq : q = p
              · subst hq
                rw [upd_same]
                simp
              · rw [upd_other _ _ _ _ hq]
                constructor
                · intro hh
                  have := (h q).mp hh
                  rw [how] at this
                  cases this
                · intro hh
                  injection hh with hh
                  exact absurd hh.symm hq
          | some o =>
              by_cases hto : t ≤ e
              · have hstep : s.step (LockAct.poll p) =
                    { s with procs := upd s.procs p ProcStatus.timedOut } := by
                  simp [LockSys.step, hst, how, hto]
                rw [hstep]
                intro q
                dsimp only
                by_cases hq : q = p
                · subst hq
                  rw [upd_same]
                  constructor
                  · intro hh; cases hh
                  · intro how2
                    have := (h q).mpr how2
                    rw [hst] at this
                    cases this
                · rw [upd_other _ _ _ _ hq]
                  exact h q
              · have hstep : s.step (LockAct.poll p) =
                    { s with procs := upd s.procs p (ProcStatus.waiting (e + 1) t) } := by
                  simp [LockSys.step, hst, how, hto]
                rw [hstep]
                intro q
                dsimp only
                by_cases hq : q = p
                · subst hq
                  rw [upd_same]
                  constructor
                  · intro hh; cases hh
                  · intro how2
                    have := (h q).mpr how2
                    rw [hst] at this
                    cases this
                · rw [upd_other _ _ _ _ hq]
                  exact h q
      | idle =>
          have hstep : s.step (LockAct.poll p) = s := by simp [LockSys.step, hst]
          rw [hstep]; exact h
      | holding =>
          have hstep : s.step (LockAct.poll p) = s := by simp [LockSys.step, hst]
          rw [hstep]; exact h
      | timedOut =>
          have hstep : s.step (LockAct.poll p) = s := by simp [LockSys.step, hst]
          rw [hstep]; exact h
      | released =>
          have hstep : s.step (LockAct.poll p) = s := by simp [LockSys.step, hst]
          rw [hstep]; exact h
  | release p =>
      cases hst : s.procs p with
      | holding =>
          have howner : s.owner = some p := (h p).mp hst
          have hstep : s.step (LockAct.release p) =
              { owner := none, procs := upd s.procs p ProcStatus.released } := by
            simp [LockSys.step, hst]
          rw [hstep]
          intro q
          dsimp only
          by_cases hq : q = p
          · subst hq
            rw [upd_same]
            simp
          · rw [upd_other _ _ _ _ hq]
            constructor
            · intro hh
              have := (h q).mp hh
              rw [howner] at this
              injection this with hh2
              exact absurd hh2 (Ne.symm hq)
            · intro hh; cases hh
      | idle =>
          have hstep : s.step (LockAct.release p) = s := by simp [LockSys.step, hst]
          rw [hstep]; exact h
      | waiting e t =>
          have hstep : s.step (LockAct.release p) = s := by simp [LockSys.step, hst]
          rw [hstep]; exact h
      | timedOut =>
          have hstep : s.step (LockAct.release p) = s := by simp [LockSys.step, hst]
          rw [hstep]; exact h
      | released =>
          have hstep : s.step (LockAct.release p) = s := by simp [LockSys.step, hst]
          rw [hstep]; exact h

theorem lockInv_foldl :
    ∀ (acts : List LockAct) (s : LockSys), LockInv s →
      LockInv (acts.foldl LockSys.step s)
  | [], _, h => h
  | a :: rest, s, h => lockInv_foldl rest (s.step a) (lockInv_step s a h)

/-- Claim C7: two processes never hold the lock simultaneously in any
reachable state; a process newly obtains the lock only when it is free,
and the lock becomes free only through a release by its holder (so a
second acquire succeeds only after the first handle is released); and an
acquire whose wait has reached its timeout while the lock is busy fails
with `LockTimeout`. -/
theorem lock_mutual_exclusion :
    (∀ (acts : List LockAct) (p q : Nat),
      (lockRun acts).procs p = ProcStatus.holding →
      (lockRun acts).procs q = ProcStatus.holding → p = q) ∧
    (∀ (acts : List LockAct) (a : LockAct) (p : Nat),
      (lockRun acts).procs p ≠ ProcStatus.holding →
      ((lockRun acts).step a).procs p = ProcStatus.holding →
      (lockRun acts).owner = none) ∧
    (∀ (s : LockSys) (a : LockAct),
      s.owner.isSome = true → (s.step a).owner = none →
      ∃ p, a = LockAct.release p ∧ s.procs p = ProcStatus.holding) ∧
    (∀ (s : LockSys) (p e t : Nat),
      s.procs p = ProcStatus.waiting e t → t ≤ e → s.owner.isSome = true →
      (s.step (LockAct.poll p)).procs p = ProcStatus.timedOut) := by
  refine ⟨?_, ?_, ?_, ?_⟩
  · intro acts p q hp hq
    have hinv := lockInv_foldl acts lockInit lockInv_init
    have h1 := (hinv p).mp hp
    have h2 := (hinv q).mp hq
    rw [h1] at h2
    exact Option.some.inj h2
  · intro acts a p hnp hnew
    cases a with
    | request p' t =>
        cases hst : (lockRun acts).procs p' with
        | idle =>
            have hstep : (lockRun acts).step (LockAct.request p' t) =
                { lockRun acts with
                  procs := upd (lockRun acts).procs p' (ProcStatus.waiting 0 t) } := by
              simp [LockSys.step, hst]
            rw [hstep] at hnew
            dsimp only at hnew
            by_cases hq : p = p'
            · subst hq
              rw [upd_same] at hnew
              cases hnew
            · rw [upd_other _ _ _ _ hq] at hnew
              exact absurd hnew hnp
        | waiting e t0 =>
            have hstep : (lockRun acts).step (LockAct.request p' t) = lockRun acts := by
              simp [LockSys.step, hst]
            rw [hstep] at hnew
            exact absurd hnew hnp
        | holding =>
            have hstep : (lockRun acts).step (LockAct.request p' t) = lockRun acts := by
              simp [LockSys.step, hst]
            rw [hstep] at hnew
            exact absurd hnew hnp
        | timedOut =>
            have hstep : (lockRun acts).step (LockAct.request p' t) = lockRun acts := by
              simp [LockSys.step, hst]
            rw [hstep] at hnew
            exact absurd hnew hnp
        | released =>
            have hstep : (lockRun acts).step (LockAct.request p' t) = lockRun acts := by
              simp [LockSys.step, hst]
            rw [hstep] at hnew
            exact absurd hnew hnp
    | poll p' =>
        cases hst : (lockRun acts).procs p' with
        | waiting e t =>
            cases how : (lockRun acts).owner with
            | none => rfl
            | some o =>
                by_cases hto : t ≤ e
                · have hstep : (lockRun acts).step (LockAct.poll p') =
                      { lockRun acts with
                        procs := upd (lockRun acts).procs p' ProcStatus.timedOut } := by
                    simp [LockSys.step, hst, how, hto]
                  rw [hstep] at hnew
                  dsimp only at hnew
                  by_cases hq : p = p'
                  · subst hq
                    rw [upd_same] at hnew
                    cases hnew
                  · rw [upd_other _ _ _ _ hq] at hnew
                    exact absurd hnew hnp
                · have hstep : (lockRun acts).step (LockAct.poll p') =
                      { lockRun acts with
                        procs := upd (lockRun acts).procs p'
                          (ProcStatus.waiting (e + 1) t) } := by
                    simp [LockSys.step, hst, how, hto]
                  rw [hstep] at hnew
                  dsimp only at hnew
                  by_cases hq : p = p'
                  · subst hq
                    rw [upd_same] at hnew
                    cases hnew
                  · rw [upd_other _ _ _ _ hq] at hnew
                    exact absurd hnew hnp
        | idle =>
            have hstep : (lockRun acts).step (LockAct.poll p') = lockRun acts := by
              simp [LockSys.step, hst]
            rw [hstep] at hnew
            exact absurd hnew hnp
        | holding =>
            have hstep : (lockRun acts).step (LockAct.poll p') = lockRun acts := by
              simp [LockSys.step, hst]
            rw [hstep] at hnew
            exact absurd hnew hnp
        | timedOut =>
            have hstep : (lockRun acts).step (LockAct.poll p') = lockRun acts := by
              simp [LockSys.step, hst]
            rw [hstep] at hnew
            exact absurd hnew hnp
        | released =>
            have hstep : (lockRun acts).step (LockAct.poll p') = lockRun acts := by
              simp [LockSys.step, hst]
            rw [hstep] at hnew
            exact absurd hnew hnp
    | release p' =>
        cases hst : (lockRun acts).procs p' with
        | holding =>
            have hstep : (lockRun acts).step (LockAct.release p') =
                { owner := none,
                  procs := upd (lockRun acts).procs p' ProcStatus.released } := by
              simp [LockSys.step, hst]
            rw [hstep] at hnew
            dsimp only at hnew
            by_cases hq : p = p'
            · subst hq
              rw [upd_same] at hnew
              cases hnew
            · rw [upd_other _ _ _ _ hq] at hnew
              exact absurd hnew hnp
        | idle =>
            have hstep : (lockRun acts).step (LockAct.release p') = lockRun acts := by
              simp [LockSys.step, hst]
            rw [hstep] at hnew
            exact absurd hnew hnp
        | waiting e t =>
            have hstep : (lockRun acts).step (LockAct.release p') = lockRun acts := by
              simp [LockSys.step, hst]
            rw [hstep] at hnew
            exact absurd hnew hnp
        | timedOut =>
            have hstep : (lockRun acts).step (LockAct.release p') = lockRun acts := by
              simp [LockSys.step, hst]
            rw [hstep] at hnew
            exact absurd hnew hnp
        | released =>
            have hstep : (lockRun acts).step (LockAct.release p') = lockRun acts := by
              simp [LockSys.step, hst]
            rw [hstep] at hnew
            exact absurd hnew hnp
  · intro s a hsome hnone
    cases a with
    | request p t =>
        cases hst : s.procs p with
        | idle =>
            have hstep : s.step (LockAct.request p t) =
                { s with procs := upd s.procs p (ProcStatus.waiting 0 t) } := by
              simp [LockSys.step, hst]
            rw [hstep] at hnone
            dsimp only at hnone
            rw [hnone] at hsome
            cases hsome
        | waiting e t0 =>
            have hstep : s.step (LockAct.request p t) = s := by simp [LockSys.step, hst]
            rw [hstep] at hnone
            rw [hnone] at hsome
            cases hsome
        | holding =>
            have hstep : s.step (LockAct.request p t) = s := by simp [LockSys.step, hst]
            rw [hstep] at hnone
            rw [hnone] at hsome
            cases hsome
        | timedOut =>
            have hstep : s.step (LockAct.request p t) = s := by simp [LockSys.step, hst]
            rw [hstep] at hnone
            rw [hnone] at hsome
            cases hsome
        | released =>
            have hstep : s.step (LockAct.request p t) = s := by simp [LockSys.step, hst]
            rw [hstep] at hnone
            rw [hnone] at hsome
            cases hsome
    | poll p =>
        cases hst : s.procs p with
        | waiting e t =>
            cases how : s.owner with
            | none =>
                rw [how] at hsome
                cases hsome
            | some o =>
                by_cases hto : t ≤ e
                · have hstep : s.step (LockAct.poll p) =
                      { s with procs := upd s.procs p ProcStatus.timedOut } := by
                    simp [LockSys.step, hst, how, hto]
                  rw [hstep] at hnone
                  dsimp only at hnone
                  rw [hnone] at hsome
                  cases hsome
                · have hstep : s.step (LockAct.poll p) =
                      { s with procs := upd s.procs p (ProcStatus.waiting (e + 1) t) } := by
                    simp [LockSys.step, hst, how, hto]
                  rw [hstep] at hnone
                  dsimp only at hnone
                  rw [hnone] at hsome
                  cases hsome
        | idle =>
            have hstep : s.step (LockAct.poll p) = s := by simp [LockSys.step, hst]
            rw [hstep] at hnone
            rw [hnone] at hsome
            cases hsome
        | holding =>
            have hstep : s.step (LockAct.poll p) = s := by simp [LockSys.step, hst]
            rw [hstep] at hnone
            rw [hnone] at hsome
            cases hsome
        | timedOut =>
            have hstep : s.step (LockAct.poll p) = s := by simp [LockSys.step, hst]
            rw [hstep] at hnone
            rw [hnone] at hsome
            cases hsome
        | released =>
            have hstep : s.step (LockAct.poll p) = s := by simp [LockSys.step, hst]
            rw [hstep] at hnone
            rw [hnone] at hsome
            cases hsome
    | release p =>
        cases hst : s.procs p with
        | holding => exact ⟨p, rfl, hst⟩
        | idle =>
            have hstep : s.step (LockAct.release p) = s := by simp [LockSys.step, hst]
            rw [hstep] at hnone
            rw [hnone] at hsome
            cases hsome
        | waiting e t =>
            have hstep : s.step (LockAct.release p) = s := by simp [LockSys.step, hst]
            rw [hstep] at hnone
            rw [hnone] at hsome
            cases hsome
        | timedOut =>
            have hstep : s.step (LockAct.release p) = s := by simp [LockSys.step, hst]
            rw [hstep] at hnone
            rw [hnone] at hsome
            cases hsome
        | released =>
            have hstep : s.step (LockAct.release p) = s := by simp [LockSys.step, hst]
            rw [hstep] at hnone
            rw [hnone] at hsome
            cases hsome
  · intro s p e t hst hto hsome
    cases how : s.owner with
    | none =>
        rw [how] at hsome
        cases hsome
    | some o =>
        have hstep : s.step (LockAct.poll p) =
            { s with procs := upd s.procs p ProcStatus.timedOut } := by
          simp [LockSys.step, hst, how, hto]
        rw [hstep]
        dsimp only
        exact upd_same s.procs p ProcStatus.timedOut

/-- Witness for claim C7 at concrete schedules: after process 0 acquires,
mutual exclusion is applied at two holding observations; a fresh grant is
observed from the free state; releasing is the way the lock became free;
and a zero-timeout acquire against a busy lock times out. -/
theorem lock_mutual_exclusion_witness :
    (0 : Nat) = 0 ∧
    (lockRun [LockAct.request 0 5]).owner = none ∧
    (∃ p, LockAct.release 0 = LockAct.release p ∧
      (lockRun [LockAct.request 0 5, LockAct.poll 0]).procs p = ProcStatus.holding) ∧
    ((lockRun [LockAct.request 0 5, LockAct.poll 0, LockAct.request 1 0]).step
      (LockAct.poll 1)).procs 1 = ProcStatus.timedOut := by
  refine ⟨?_, ?_, ?_, ?_⟩
  · exact lock_mutual_exclusion.1 [LockAct.request 0 5, LockAct.poll 0] 0 0
      (by decide) (by decide)
  · exact lock_mutual_exclusion.2.1 [LockAct.request 0 5] (LockAct.poll 0) 0
      (by decide) (by decide)
  · exact lock_mutual_exclusion.2.2.1 (lockRun [LockAct.request 0 5, LockAct.poll 0])
      (LockAct.release 0) (by decide) (by decide)
  · exact lock_mutual_exclusion.2.2.2
      (lockRun [LockAct.request 0 5, LockAct.poll 0, LockAct.request 1 0]) 1 0 0
      (by decide) (by decide) (by decide)
